import Mathlib

/-!
Shallow embedding of the regex-driven distillation stages of
`text_distilling_processes.py`: the base scanner `RegexRead.distill`,
the delimiter extractor `ReadBetweenTokens`, the multi-pattern scanner
`MultipleRegexRead` and the block scanner `BlockRegexRead`.

The stream cursor is a list of remaining lines; `readline` yields the
head (an empty string, Python-falsy, marks exhaustion).  Python's
`re.findall` is a parameter `m : String → String → List String`
(pattern, text ↦ matches) for generic statements; the concrete patterns
exercised by the spec's scenarios (`\w+=\w+`, `\[(.*?)\]`, literal
tokens) are given executable engines below.
-/

namespace TextDistiller

/-- Python runtime errors relevant to these stages. -/
inductive PyErr where
  | typeError
  | indexError
deriving DecidableEq, Repr

/-- Python's `\s` whitespace class (ASCII range used by the streams here). -/
def pyIsSpace (c : Char) : Bool :=
  c = ' ' || c = '\t' || c = '\n' || c = '\r' || c = Char.ofNat 11 || c = Char.ofNat 12

/-- Python's `\w` word-character class (ASCII letters, digits, underscore). -/
def isWordChar (c : Char) : Bool :=
  c.isAlpha || c.isDigit || c = '_'

/-- Helper for substring containment: does `needle` start at some position of the list? -/
def containsFrom (needle : List Char) : List Char → Bool
  | [] => needle.isEmpty
  | c :: rest => needle.isPrefixOf (c :: rest) || containsFrom needle rest

/-- Python's substring test `needle in hay`. -/
def strContains (hay needle : String) : Bool :=
  containsFrom needle.data hay.data

/-- `RegexRead._cleanup_whitespaces`: `re.sub(r"\s+", "", line)` removes every
whitespace character. -/
def cleanupAll (line : String) : String :=
  String.mk (line.data.filter (fun c => !pyIsSpace c))

/-- Split a list at the first occurrence of `t`: returns the part before and after. -/
def splitAtFirst (t : Char) : List Char → Option (List Char × List Char)
  | [] => none
  | c :: rest =>
    if c = t then some ([], rest)
    else
      match splitAtFirst t rest with
      | some (before, after) => some (c :: before, after)
      | none => none

/-- `re.findall` for the pattern `\t1(.*?)\t2` synthesized by
`ReadBetweenTokens._set_regex` from single-character tokens: at each `t1` the
lazy group captures up to the first following `t2`; scanning resumes after it.
The fuel argument bounds the number of scan steps (each consumes at least one
character, so `length + 1` never runs out). -/
def findAllBetweenAux (t1 t2 : Char) : Nat → List Char → List String
  | 0, _ => []
  | _ + 1, [] => []
  | fuel + 1, c :: rest =>
    if c = t1 then
      match splitAtFirst t2 rest with
      | some (before, after) => String.mk before :: findAllBetweenAux t1 t2 fuel after
      | none => findAllBetweenAux t1 t2 fuel rest
    else findAllBetweenAux t1 t2 fuel rest

def findAllBetween (t1 t2 : Char) (cs : List Char) : List String :=
  findAllBetweenAux t1 t2 (cs.length + 1) cs

/-- `re.sub` for the same token-pair pattern with replacement `" "`: each
matched span (delimiters included) becomes a single space. -/
def subBetweenAux (t1 t2 : Char) : Nat → List Char → List Char
  | 0, cs => cs
  | _ + 1, [] => []
  | fuel + 1, c :: rest =>
    if c = t1 then
      match splitAtFirst t2 rest with
      | some (_, after) => ' ' :: subBetweenAux t1 t2 fuel after
      | none => c :: subBetweenAux t1 t2 fuel rest
    else c :: subBetweenAux t1 t2 fuel rest

def subBetween (t1 t2 : Char) (cs : List Char) : List Char :=
  subBetweenAux t1 t2 (cs.length + 1) cs

/-- Match the pattern `\w+=\w+` at the start of the list: a maximal nonempty
word run, `=`, a maximal nonempty word run.  Returns the matched span and the
remaining characters. -/
def kvMatchAt (cs : List Char) : Option (List Char × List Char) :=
  let r1 := cs.takeWhile isWordChar
  if r1.isEmpty then none
  else
    match cs.dropWhile isWordChar with
    | '=' :: t2 =>
      let r2 := t2.takeWhile isWordChar
      if r2.isEmpty then none
      else some (r1 ++ '=' :: r2, t2.dropWhile isWordChar)
    | _ => none

/-- `re.findall(r"\w+=\w+", ...)`: scan left to right, emitting each match and
resuming after it; on failure advance one character. -/
def kvFindAllAux : Nat → List Char → List String
  | 0, _ => []
  | _ + 1, [] => []
  | fuel + 1, c :: rest =>
    match kvMatchAt (c :: rest) with
    | some (matched, after) => String.mk matched :: kvFindAllAux fuel after
    | none => kvFindAllAux fuel rest

def kvFindAll (cs : List Char) : List String :=
  kvFindAllAux (cs.length + 1) cs

/-- The pattern string for key=value tokens. -/
def kvPat : String := "\\w+=\\w+"

/-- `re.findall` oracle handling the key=value pattern of the block-scanner
scenario (any other pattern yields no matches). -/
def kvOracle : String → String → List String :=
  fun pat s => if pat = kvPat then kvFindAll s.data else []

/-- `re.findall` for a metacharacter-free (literal) nonempty pattern: each
non-overlapping occurrence of the literal is a match.  (An empty pattern is
modelled as matching nothing; the scenarios only use nonempty literals.) -/
def findAllLitAux (needle : List Char) : Nat → List Char → List String
  | 0, _ => []
  | _ + 1, [] => []
  | fuel + 1, c :: cs =>
    if !needle.isEmpty && needle.isPrefixOf (c :: cs) then
      String.mk needle :: findAllLitAux needle fuel (List.drop needle.length (c :: cs))
    else findAllLitAux needle fuel cs

def litOracle : String → String → List String :=
  fun pat s => findAllLitAux pat.data (s.data.length + 1) s.data

/-- Oracle for a pattern matching a whole line, used to witness generic
statements: every capture is the input itself. -/
def idOracle : String → String → List String :=
  fun _ s => [s]

/-- Python's `str.split()`: split on whitespace runs, dropping empty pieces.
`cur` holds the (reversed) pending non-space run. -/
def splitWsAux (cur : List Char) : List Char → List String
  | [] => if cur.isEmpty then [] else [String.mk cur.reverse]
  | c :: cs =>
    if pyIsSpace c then
      if cur.isEmpty then splitWsAux [] cs
      else String.mk cur.reverse :: splitWsAux [] cs
    else splitWsAux (c :: cur) cs

def splitWs (cs : List Char) : List String :=
  splitWsAux [] cs

/-- Per-stage data driving the scan loop of `RegexRead.distill`: the two stop
options plus the subclass hooks `_cleanup_whitespaces` and `_match_and_store`
(the latter returns the updated accumulator and the match flag, or a Python
error). -/
structure ScanCfg (σ : Type) where
  stopOnMatch : Bool
  stopToken : Option String
  cleanup : String → String
  matchAndStore : String → σ → Except PyErr (σ × Bool)

/-- A `_match_and_store` hook that cannot raise. -/
def pureStep {σ : Type} (f : String → σ → σ × Bool) : String → σ → Except PyErr (σ × Bool) :=
  fun line s => .ok (f line s)

/-- The while-loop of `RegexRead.distill`.  Reading from an empty cursor, or a
Python-falsy (empty) line, is stream exhaustion: the cursor becomes `none` and
the accumulated results are returned.  Otherwise the line is checked for the
stop token (raw, before normalization), normalized, matched and stored; the
loop continues unless the stage is single-shot, the stop token occurred, or a
match was found with `stop_on_match` set. -/
def distillLoop {σ : Type} (cfg : ScanCfg σ) : List String → σ → Except PyErr (Option (List String) × σ)
  | [], s => .ok (none, s)
  | line :: rest, s =>
    if line = "" then .ok (none, s)
    else
      match cfg.matchAndStore (cfg.cleanup line) s with
      | .error e => .error e
      | .ok sf =>
        if (cfg.stopToken.isNone && !cfg.stopOnMatch)
            || (match cfg.stopToken with
                | some tok => strContains line tok
                | none => false)
            || (sf.2 && cfg.stopOnMatch) then
          .ok (some rest, sf.1)
        else distillLoop cfg rest sf.1

/-- `RegexRead._match_and_store`: findall on the line, extend the list
accumulator, report whether anything matched. -/
def regexReadStep (m : String → String → List String) (regex : String)
    (line : String) (acc : List String) : List String × Bool :=
  let r := m regex line
  (acc ++ r, !r.isEmpty)

def baseCfg (m : String → String → List String) (regex : String)
    (stopOnMatch : Bool) (stopToken : Option String) : ScanCfg (List String) :=
  ⟨stopOnMatch, stopToken, cleanupAll, pureStep (regexReadStep m regex)⟩

/-- `RegexRead.distill`: run the loop with a freshly reset accumulator. -/
def regexReadDistill (m : String → String → List String) (regex : String)
    (stopOnMatch : Bool) (stopToken : Option String) (cursor : List String) :
    Except PyErr (Option (List String) × List String) :=
  distillLoop (baseCfg m regex stopOnMatch stopToken) cursor []

/-- Sample returned by `ReadBetweenTokens.distill`: an ordered capture list,
or an insertion-ordered name ↦ value mapping when `store_names` is set. -/
inductive RbtSample where
  | list (items : List String)
  | dict (entries : List (String × String))
deriving DecidableEq, Repr

/-- Python dict assignment `d[k] = v` on an insertion-ordered mapping:
overwrite in place if the key exists, else append. -/
def dictInsert (d : List (String × String)) (k v : String) : List (String × String) :=
  match d with
  | [] => [(k, v)]
  | (k0, v0) :: t => if k0 = k then (k0, v) :: t else (k0, v0) :: dictInsert t k v

/-- The loop `for i, name in enumerate(names): dict_data[name] = data[i]`:
indexing past the end of `data` raises IndexError; surplus captures are
silently ignored. -/
def buildDict (data : List String) : List String → Nat → List (String × String) →
    Except PyErr (List (String × String))
  | [], _, d => .ok d
  | name :: rest, i, d =>
    match data.get? i with
    | none => .error .indexError
    | some v => buildDict data rest (i + 1) (dictInsert d name v)

/-- `ReadBetweenTokens.distill` for single-character tokens `t1`, `t2` (the
pattern `_set_regex` builds is `\t1(.*?)\t2`): read one line, strip all
whitespace, findall; with `store_names`, names are the whitespace-split
remainder after substituting each match with a space. -/
def rbtDistill (t1 t2 : Char) (storeNames : Bool) :
    List String → Except PyErr (Option (List String) × Option RbtSample)
  | [] => .ok (none, none)
  | line :: rest =>
    if line = "" then .ok (none, none)
    else
      if storeNames then
        match buildDict (findAllBetween t1 t2 (cleanupAll line).data)
            (splitWs (subBetween t1 t2 (cleanupAll line).data)) 0 [] with
        | .error e => .error e
        | .ok d => .ok (some rest, some (.dict d))
      else .ok (some rest, some (.list (findAllBetween t1 t2 (cleanupAll line).data)))

/-- Lookup in an insertion-ordered association list (Python `d[k]` / `k in d`). -/
def assocLookup {α : Type} : List (String × α) → String → Option α
  | [], _ => none
  | (k, v) :: t, key => if k = key then some v else assocLookup t key

/-- Recording a match for `regex_id` in `MultipleRegexRead`: extend the entry
in place if present, otherwise insert it at the end. -/
def multiRecord (s : List (String × List String)) (id : String) (caps : List String) :
    List (String × List String) :=
  match s with
  | [] => [(id, caps)]
  | (k, v) :: t => if k = id then (k, v ++ caps) :: t else (k, v) :: multiRecord t id caps

/-- Inner loop of `MultipleRegexRead._match_and_store` over one identifier's
pattern list, threading the (accumulator, match-flag) pair; when
`exclusive` and the flag is set, the body is skipped. -/
def multiMASPats (m : String → String → List String) (exclusive : Bool) (line id : String) :
    List String → List (String × List String) × Bool → List (String × List String) × Bool
  | [], acc => acc
  | regex :: rest, acc =>
    multiMASPats m exclusive line id rest
      (if !(acc.2 && exclusive) then
        let temp := m regex line
        if temp.isEmpty then acc else (multiRecord acc.1 id temp, true)
      else acc)

/-- Outer loop of `MultipleRegexRead._match_and_store` over the identifiers in
insertion order. -/
def multiMASIds (m : String → String → List String) (exclusive : Bool) (line : String) :
    List (String × List String) → List (String × List String) × Bool →
    List (String × List String) × Bool
  | [], acc => acc
  | (id, pats) :: rest, acc =>
    multiMASIds m exclusive line rest (multiMASPats m exclusive line id pats acc)

/-- `MultipleRegexRead._match_and_store` on one line, starting with a cleared
line-local match flag. -/
def multiMAS (m : String → String → List String) (exclusive : Bool)
    (rdict : List (String × List String)) (line : String)
    (s : List (String × List String)) : List (String × List String) × Bool :=
  multiMASIds m exclusive line rdict (s, false)

/-- `MultipleRegexRead._cleanup_whitespaces` (shared with `BlockRegexRead`):
full whitespace removal when `clean_whitespaces` is set, identity otherwise. -/
def multiCleanup (clean : Bool) (line : String) : String :=
  if clean then cleanupAll line else line

/-- `MultipleRegexRead.distill`: the base loop with the dict accumulator. -/
def multiDistill (m : String → String → List String) (exclusive clean : Bool)
    (stopOnMatch : Bool) (stopToken : Option String)
    (rdict : List (String × List String)) (cursor : List String) :
    Except PyErr (Option (List String) × List (String × List String)) :=
  distillLoop ⟨stopOnMatch, stopToken, multiCleanup clean,
    pureStep (multiMAS m exclusive rdict)⟩ cursor []

/-- Per-call state of `BlockRegexRead`: the block counter and the
identifier ↦ list of (block id, captures) accumulator. -/
structure BlockState where
  count : Nat
  data : List (String × List (Nat × List String))
deriving DecidableEq, Repr

/-- First pattern of a list with a nonempty findall result (the inner loop of
`BlockRegexRead._match_and_store`, which breaks after a success). -/
def firstHitPats (m : String → String → List String) (line : String) :
    List String → Option (List String)
  | [] => none
  | regex :: rest =>
    let temp := m regex line
    if temp.isEmpty then firstHitPats m line rest else some temp

/-- First identifier (in insertion order) with a matching pattern (the outer
loop of `BlockRegexRead._match_and_store`, which breaks once a match is found). -/
def firstHit (m : String → String → List String) (line : String) :
    List (String × List String) → Option (String × List String)
  | [] => none
  | (id, pats) :: rest =>
    match firstHitPats m line pats with
    | some caps => some (id, caps)
    | none => firstHit m line rest

/-- Update the entry list for a matched identifier: extend the last entry in
place if it carries the current block id, else append a new (block id,
captures) entry. -/
def blockUpdateLast : List (Nat × List String) → Nat → List String → List (Nat × List String)
  | [], count, caps => [(count, caps)]
  | [(bid, prev)], count, caps =>
    if bid = count then [(bid, prev ++ caps)] else [(bid, prev), (count, caps)]
  | e :: rest, count, caps => e :: blockUpdateLast rest count caps

/-- Store a block-scanner match under its identifier (insertion-ordered dict). -/
def blockRecord : List (String × List (Nat × List String)) → String → Nat → List String →
    List (String × List (Nat × List String))
  | [], id, count, caps => [(id, [(count, caps)])]
  | (k, entries) :: t, id, count, caps =>
    if k = id then (k, blockUpdateLast entries count caps) :: t
    else (k, entries) :: blockRecord t id count caps

/-- `BlockRegexRead._match_and_store` with the boundary token present: bump
the block counter if the token occurs in the (normalized) line, then try the
patterns fully exclusively and store the first hit. -/
def blockStep (m : String → String → List String) (tok : String)
    (rdict : List (String × List String)) (line : String) (s : BlockState) :
    BlockState × Bool :=
  let c := if strContains line tok then s.count + 1 else s.count
  match firstHit m line rdict with
  | none => (⟨c, s.data⟩, false)
  | some (id, caps) => (⟨c, blockRecord s.data id c caps⟩, true)

/-- `BlockRegexRead._match_and_store`: with `block_end_token` unset the
substring test `self.block_end_token in text_line` raises a TypeError. -/
def blockMAS (m : String → String → List String) (blockTok : Option String)
    (rdict : List (String × List String)) : String → BlockState → Except PyErr (BlockState × Bool) :=
  match blockTok with
  | none => fun _ _ => .error .typeError
  | some tok => pureStep (blockStep m tok rdict)

/-- `BlockRegexRead.distill`: `stop_on_match` is fixed to false by the
constructor; accumulator and block counter start reset. -/
def blockDistill (m : String → String → List String) (blockTok stopToken : Option String)
    (clean : Bool) (rdict : List (String × List String)) (cursor : List String) :
    Except PyErr (Option (List String) × BlockState) :=
  distillLoop ⟨false, stopToken, multiCleanup clean, blockMAS m blockTok rdict⟩ cursor ⟨0, []⟩

/-- The regex binding of the block-scanner scenario: one identifier `kv`. -/
def c1Dict : List (String × List String) := [("kv", [kvPat])]

/-- The line sequence of the block-scanner scenario. -/
def c1Lines : List String := ["<END>\n", "x=1\n", "<END>\n", "y=2\n"]

/-- One scanned line of the block-scanner scenario: normalization followed by
`_match_and_store`, keeping the state. -/
def c1Step (l : String) (s : BlockState) : BlockState :=
  (blockStep kvOracle "<END>" c1Dict (cleanupAll l) s).1

/-- Run of the base scan loop up to a line containing the stop token: earlier
lines are nonempty, free of the token, and (when `stop_on_match` is set) free
of matches, so the loop proceeds through them accumulating captures and halts
at the stop line itself. -/
theorem regexRead_stop_aux (m : String → String → List String) (regex tok : String) (b : Bool)
    (stopLine : String) (rest : List String)
    (hne : stopLine ≠ "") (htok : strContains stopLine tok = true) :
    ∀ (pre : List String) (acc : List String),
      (∀ l ∈ pre, l ≠ "" ∧ strContains l tok = false ∧ (b = true → m regex (cleanupAll l) = [])) →
      distillLoop (baseCfg m regex b (some tok)) (pre ++ stopLine :: rest) acc
        = .ok (some rest, pre.foldl (fun a l => a ++ m regex (cleanupAll l)) acc
            ++ m regex (cleanupAll stopLine)) := by
  intro pre
  induction pre with
  | nil =>
    intro acc _
    simp [distillLoop, baseCfg, pureStep, regexReadStep, hne, htok]
  | cons l pre' ih =>
    intro acc hpre
    obtain ⟨hl, hcont, hm⟩ := hpre l (List.mem_cons_self l pre')
    have hstep : distillLoop (baseCfg m regex b (some tok)) ((l :: pre') ++ stopLine :: rest) acc
        = distillLoop (baseCfg m regex b (some tok)) (pre' ++ stopLine :: rest)
            (acc ++ m regex (cleanupAll l)) := by
      cases b with
      | false => simp [distillLoop, baseCfg, pureStep, regexReadStep, hl, hcont]
      | true => simp [distillLoop, baseCfg, pureStep, regexReadStep, hl, hcont, hm rfl]
    rw [hstep, ih _ (fun l' h' => hpre l' (List.mem_cons_of_mem l h'))]
    simp

/-- C2: with a stop token configured, as soon as the raw (unnormalized) line
contains it the iteration is final: the stopping line is still normalized and
matched and its captures are appended, the cursor returned is exactly the
lines after the stopping line (so none of them is ever read), and detection is
on the raw line (only raw containment is assumed). -/
theorem c2_stop_token_raw (m : String → String → List String) (regex tok : String) (b : Bool)
    (pre : List String) (stopLine : String) (rest : List String)
    (hpre : ∀ l ∈ pre, l ≠ "" ∧ strContains l tok = false ∧ (b = true → m regex (cleanupAll l) = []))
    (hne : stopLine ≠ "") (htok : strContains stopLine tok = true) :
    regexReadDistill m regex b (some tok) (pre ++ stopLine :: rest)
      = .ok (some rest, pre.foldl (fun a l => a ++ m regex (cleanupAll l)) []
          ++ m regex (cleanupAll stopLine)) :=
  regexRead_stop_aux m regex tok b stopLine rest hne htok pre [] hpre

/-- Witness for C2 at the spec's example: stop token `"END"`, lines `"a1\n"`,
`"b2\n"`, `"cEND\n"`, `"d3\n"` with a pattern matching `"c"`: the call halts
after consuming `"cEND\n"`, its match is included, `"d3\n"` is never read. -/
theorem c2_stop_token_raw_witness :
    (∀ l ∈ (["a1\n", "b2\n"] : List String),
      l ≠ "" ∧ strContains l "END" = false ∧ (false = true → litOracle "c" (cleanupAll l) = []))
    ∧ ("cEND\n" : String) ≠ "" ∧ strContains "cEND\n" "END" = true
    ∧ regexReadDistill litOracle "c" false (some "END") ["a1\n", "b2\n", "cEND\n", "d3\n"]
        = .ok (some ["d3\n"], ["c"]) :=
  ⟨by decide, by decide, by decide,
    (c2_stop_token_raw litOracle "c" "END" false ["a1\n", "b2\n"] "cEND\n" ["d3\n"]
      (by decide) (by decide) (by decide)).trans rfl⟩

/-- Run of the scan loop to exhaustion: with `stop_on_match` false and a stop
token occurring in no line, every (nonempty) line is consumed, the final
cursor is the exhausted sentinel and the accumulated state is the fold of the
per-line step over all lines. -/
theorem distillLoop_exhaust {σ : Type} (cl : String → String) (f : String → σ → σ × Bool)
    (tok : String) :
    ∀ (lines : List String) (s : σ),
      (∀ l ∈ lines, l ≠ "" ∧ strContains l tok = false) →
      distillLoop ⟨false, some tok, cl, pureStep f⟩ lines s
        = .ok (none, lines.foldl (fun s l => (f (cl l) s).1) s) := by
  intro lines
  induction lines with
  | nil => intro s _; simp [distillLoop]
  | cons l rest ih =>
    intro s hl
    obtain ⟨h1, h2⟩ := hl l (List.mem_cons_self l rest)
    have hstep : distillLoop ⟨false, some tok, cl, pureStep f⟩ (l :: rest) s
        = distillLoop ⟨false, some tok, cl, pureStep f⟩ rest (f (cl l) s).1 := by
      simp [distillLoop, pureStep, h1, h2]
    rw [hstep, ih _ (fun l' h' => hl l' (List.mem_cons_of_mem l h'))]
    simp

/-- C7: for the base scanner and its multi-pattern and block subclasses, when
the stream is exhausted during the call the returned cursor is the exhausted
sentinel `none`, together with everything accumulated earlier in that same
call (exhaustion is a normal `.ok` result, not an error). -/
theorem c7_exhaustion_partial_results :
    (∀ (m : String → String → List String) (regex tok : String) (lines : List String),
      (∀ l ∈ lines, l ≠ "" ∧ strContains l tok = false) →
      regexReadDistill m regex false (some tok) lines
        = .ok (none, lines.foldl (fun acc l => acc ++ m regex (cleanupAll l)) []))
    ∧ (∀ (m : String → String → List String) (exclusive clean : Bool) (tok : String)
        (rdict : List (String × List String)) (lines : List String),
      (∀ l ∈ lines, l ≠ "" ∧ strContains l tok = false) →
      multiDistill m exclusive clean false (some tok) rdict lines
        = .ok (none, lines.foldl (fun s l => (multiMAS m exclusive rdict (multiCleanup clean l) s).1) []))
    ∧ (∀ (m : String → String → List String) (btok : String) (clean : Bool) (tok : String)
        (rdict : List (String × List String)) (lines : List String),
      (∀ l ∈ lines, l ≠ "" ∧ strContains l tok = false) →
      blockDistill m (some btok) (some tok) clean rdict lines
        = .ok (none, lines.foldl (fun s l => (blockStep m btok rdict (multiCleanup clean l) s).1) ⟨0, []⟩)) :=
  ⟨fun m regex tok lines h => distillLoop_exhaust cleanupAll (regexReadStep m regex) tok lines [] h,
   fun m exclusive clean tok rdict lines h =>
     distillLoop_exhaust (multiCleanup clean) (multiMAS m exclusive rdict) tok lines [] h,
   fun m btok clean tok rdict lines h =>
     distillLoop_exhaust (multiCleanup clean) (blockStep m btok rdict) tok lines ⟨0, []⟩ h⟩

/-- Witness for C7: concrete exhausted runs of all three scanners returning
the partial accumulations with the `none` cursor. -/
theorem c7_exhaustion_partial_results_witness :
    (∀ l ∈ (["ab\n", "ca\n"] : List String), l ≠ "" ∧ strContains l "@@" = false)
    ∧ regexReadDistill litOracle "a" false (some "@@") ["ab\n", "ca\n"] = .ok (none, ["a", "a"])
    ∧ multiDistill litOracle true true false (some "@@") [("A", ["a"])] ["ab\n"]
        = .ok (none, [("A", ["a"])])
    ∧ blockDistill litOracle (some "<E>") (some "@@") true [("A", ["a"])] ["a<E>\n"]
        = .ok (none, ⟨1, [("A", [(1, ["a"])])]⟩) :=
  ⟨by decide,
   (c7_exhaustion_partial_results.1 litOracle "a" "@@" ["ab\n", "ca\n"] (by decide)).trans rfl,
   (c7_exhaustion_partial_results.2.1 litOracle true true "@@" [("A", ["a"])] ["ab\n"]
     (by decide)).trans rfl,
   (c7_exhaustion_partial_results.2.2 litOracle "<E>" true "@@" [("A", ["a"])] ["a<E>\n"]
     (by decide)).trans rfl⟩

/-- C1: Block-Segmenting Matcher scenario with boundary token `"<END>"`, one
binding `"kv"` capturing key=value tokens, and a stop token occurring in no
line (needed so a single call scans the whole stream): the call consumes all
four lines (exhausted cursor), the block counter is 1 after line 1 and 2 after
line 3, and the sample is `{"kv": [(1, ["x=1"]), (2, ["y=2"])]}`. -/
theorem c1_block_scenario :
    blockDistill kvOracle (some "<END>") (some "@STOP@") true c1Dict c1Lines
      = .ok (none, ⟨2, [("kv", [(1, ["x=1"]), (2, ["y=2"])])]⟩)
    ∧ (c1Step "<END>\n" ⟨0, []⟩).count = 1
    ∧ (c1Step "x=1\n" (c1Step "<END>\n" ⟨0, []⟩)).count = 1
    ∧ (c1Step "<END>\n" (c1Step "x=1\n" (c1Step "<END>\n" ⟨0, []⟩))).count = 2
    ∧ (c1Step "y=2\n" (c1Step "<END>\n" (c1Step "x=1\n" (c1Step "<END>\n" ⟨0, []⟩)))).count = 2 :=
  ⟨rfl, rfl, rfl, rfl, rfl⟩

/-- C3: on a line where the number of inferred names differs from the number
of captures, `ReadBetweenTokens.distill` does NOT raise an AlignmentError:
with fewer names than captures (`"a:[x][y]"`: one name, two captures) the
surplus capture is silently dropped, and with more names than captures
(`"z[x]w"`: two names, one capture) it fails with a Python IndexError. -/
theorem c3_mismatch_behavior :
    rbtDistill '[' ']' true ["a:[x][y]\n"] = .ok (some [], some (.dict [("a:", "x")]))
    ∧ rbtDistill '[' ']' true ["z[x]w\n"] = .error .indexError :=
  ⟨rfl, rfl⟩

/-- C5: with `stop_token` absent and `stop_on_match` false the scanner is
single-shot: every `distill` call reads exactly one line (the returned cursor
is the rest of the stream) and exits the loop, whatever the line contains and
whether or not it matched; an empty (falsy) read is exhaustion. -/
theorem c5_single_shot (m : String → String → List String) (regex : String)
    (l : String) (rest : List String) :
    regexReadDistill m regex false none (l :: rest)
      = .ok (if l = "" then none else some rest,
             if l = "" then [] else m regex (cleanupAll l)) := by
  by_cases h : l = "" <;>
    simp [regexReadDistill, distillLoop, baseCfg, pureStep, regexReadStep, h]

/-- C6, counterexample: the block-boundary check runs on the normalized line,
so with `clean_whitespaces` set a token split by whitespace in the raw input
still increments the counter: token `"AB"`, single line `"A B\n"` (which does
not contain `"AB"`), yet the counter ends at 1, not 0. -/
theorem c6_counterexample :
    strContains "A B\n" "AB" = false
    ∧ blockDistill litOracle (some "AB") none true [] ["A B\n"] = .ok (some [], ⟨1, []⟩)
    ∧ (1 : Nat) ≠ 0 :=
  ⟨by decide, rfl, by decide⟩

/-- The block counter moves exactly when the (normalized) line contains the
boundary token, independently of pattern matching. -/
theorem blockStep_count (m : String → String → List String) (tok : String)
    (rdict : List (String × List String)) (line : String) (s : BlockState) :
    ((blockStep m tok rdict line s).1).count
      = if strContains line tok then s.count + 1 else s.count := by
  cases h : firstHit m line rdict with
  | none => simp [blockStep, h]
  | some p => obtain ⟨id, caps⟩ := p; simp [blockStep, h]

/-- One unfolding of the scan loop on a nonempty line with a pure
`_match_and_store` hook. -/
theorem distillLoop_cons_pure {σ : Type} (b : Bool) (st : Option String)
    (cl : String → String) (f : String → σ → σ × Bool)
    (l : String) (rest : List String) (s : σ) (he : l ≠ "") :
    distillLoop ⟨b, st, cl, pureStep f⟩ (l :: rest) s
      = if ((st.isNone && !b)
            || (match st with | some tok => strContains l tok | none => false)
            || ((f (cl l) s).2 && b)) = true
        then .ok (some rest, (f (cl l) s).1)
        else distillLoop ⟨b, st, cl, pureStep f⟩ rest (f (cl l) s).1 := by
  simp [distillLoop, he, pureStep]

/-- Invariant preservation along any run of the scan loop with a pure hook:
a property of the accumulator state preserved by the per-line step (for the
lines actually in the stream) holds for the returned state. -/
theorem distillLoop_pure_invariant {σ : Type} (b : Bool) (st : Option String)
    (cl : String → String) (f : String → σ → σ × Bool) (P : σ → Prop) :
    ∀ (lines : List String) (s : σ) (res : Option (List String) × σ),
      (∀ l ∈ lines, ∀ s' : σ, P s' → P (f (cl l) s').1) →
      P s →
      distillLoop ⟨b, st, cl, pureStep f⟩ lines s = .ok res →
      P res.2 := by
  intro lines
  induction lines with
  | nil =>
    intro s res _ hP hres
    simp only [distillLoop] at hres
    injection hres with h
    subst h
    exact hP
  | cons l rest ih =>
    intro s res hstep hP hres
    by_cases he : l = ""
    · subst he
      simp only [distillLoop, if_pos rfl] at hres
      injection hres with h
      subst h
      exact hP
    · rw [distillLoop_cons_pure b st cl f l rest s he] at hres
      have hP' : P (f (cl l) s).1 := hstep l (List.mem_cons_self l rest) s hP
      split at hres
      · injection hres with h
        subst h
        exact hP'
      · exact ih (f (cl l) s).1 res (fun l' h' => hstep l' (List.mem_cons_of_mem l h')) hP' hres

/-- Over any run of the block scanner in which no normalized line contains the
boundary token, the counter is carried through unchanged. -/
theorem block_count_run (m : String → String → List String) (tok : String)
    (stopToken : Option String) (clean : Bool) (rdict : List (String × List String))
    (lines : List String) (s : BlockState) (res : Option (List String) × BlockState)
    (hl : ∀ l ∈ lines, strContains (multiCleanup clean l) tok = false)
    (hres : distillLoop ⟨false, stopToken, multiCleanup clean, blockMAS m (some tok) rdict⟩
      lines s = .ok res) :
    res.2.count = s.count := by
  refine distillLoop_pure_invariant false stopToken (multiCleanup clean)
    (blockStep m tok rdict) (fun x => x.count = s.count) lines s res ?_ rfl hres
  intro l hmem s' hs'
  rw [blockStep_count, hl l hmem]
  exact hs'

/-- C6, amended: for any sequence of lines none of whose NORMALIZED forms
contains the block-boundary token (equivalently the raw lines, when
`clean_whitespaces` is disabled), the block counter stays 0 for the whole
call; moreover the counter never decreases at any step, so it is 0 throughout. -/
theorem c6_block_counter_normalized :
    (∀ (m : String → String → List String) (tok : String) (stopToken : Option String)
       (clean : Bool) (rdict : List (String × List String)) (lines : List String)
       (res : Option (List String) × BlockState),
      (∀ l ∈ lines, strContains (multiCleanup clean l) tok = false) →
      blockDistill m (some tok) stopToken clean rdict lines = .ok res →
      res.2.count = 0)
    ∧ (∀ (m : String → String → List String) (tok : String)
        (rdict : List (String × List String)) (line : String) (s : BlockState),
      s.count ≤ ((blockStep m tok rdict line s).1).count) := by
  constructor
  · intro m tok stopToken clean rdict lines res hl hres
    exact block_count_run m tok stopToken clean rdict lines ⟨0, []⟩ res hl hres
  · intro m tok rdict line s
    rw [blockStep_count]
    split <;> omega

/-- Witness for C6 (amended) at a concrete run whose normalized line avoids
the token. -/
theorem c6_block_counter_normalized_witness :
    (∀ l ∈ (["AC\n"] : List String), strContains (multiCleanup true l) "AB" = false)
    ∧ ((some [], (⟨0, []⟩ : BlockState)) : Option (List String) × BlockState).2.count = 0 :=
  ⟨by decide,
    c6_block_counter_normalized.1 litOracle "AB" none true [] ["AC\n"]
      (some [], ⟨0, []⟩) (by decide) rfl⟩

/-- With the line-local flag already set, the exclusive inner pattern loop
skips every remaining pattern. -/
theorem multiMASPats_skip (m : String → String → List String) (line id : String) :
    ∀ (pats : List String) (acc : List (String × List String) × Bool),
      acc.2 = true → multiMASPats m true line id pats acc = acc := by
  intro pats
  induction pats with
  | nil => intro acc _; rfl
  | cons regex rest ih =>
    intro acc hacc
    simp [multiMASPats, hacc, ih acc hacc]

/-- With the line-local flag already set, the exclusive outer identifier loop
changes nothing. -/
theorem multiMASIds_skip (m : String → String → List String) (line : String) :
    ∀ (rdict : List (String × List String)) (acc : List (String × List String) × Bool),
      acc.2 = true → multiMASIds m true line rdict acc = acc := by
  intro rdict
  induction rdict with
  | nil => intro acc _; rfl
  | cons p rest ih =>
    intro acc hacc
    obtain ⟨id, pats⟩ := p
    rw [multiMASIds, multiMASPats_skip m line id pats acc hacc, ih acc hacc]

/-- Starting with a cleared flag, the exclusive inner loop records exactly the
first pattern of the list with a nonempty result, if any. -/
theorem multiMASPats_first (m : String → String → List String) (line id : String) :
    ∀ (pats : List String) (s : List (String × List String)),
      multiMASPats m true line id pats (s, false)
        = match firstHitPats m line pats with
          | none => (s, false)
          | some caps => (multiRecord s id caps, true) := by
  intro pats
  induction pats with
  | nil => intro s; rfl
  | cons regex rest ih =>
    intro s
    by_cases h : (m regex line).isEmpty <;>
      simp [multiMASPats, firstHitPats, h, ih, multiMASPats_skip]

/-- Starting with a cleared flag, the exclusive identifier loop records
exactly the first identifier/pattern combination that matches, if any. -/
theorem multiMASIds_first (m : String → String → List String) (line : String) :
    ∀ (rdict : List (String × List String)) (s : List (String × List String)),
      multiMASIds m true line rdict (s, false)
        = match firstHit m line rdict with
          | none => (s, false)
          | some p => (multiRecord s p.1 p.2, true) := by
  intro rdict
  induction rdict with
  | nil => intro s; rfl
  | cons p rest ih =>
    intro s
    obtain ⟨id, pats⟩ := p
    rw [multiMASIds, multiMASPats_first]
    cases h : firstHitPats m line pats with
    | none => simp [firstHit, h, ih]
    | some caps => simp [firstHit, h, multiMASIds_skip]

/-- `MultipleRegexRead._match_and_store` with exclusive matching equals the
record of the first matching identifier/pattern combination. -/
theorem multiMAS_first (m : String → String → List String)
    (rdict : List (String × List String)) (line : String) (s : List (String × List String)) :
    multiMAS m true rdict line s
      = match firstHit m line rdict with
        | none => (s, false)
        | some p => (multiRecord s p.1 p.2, true) :=
  multiMASIds_first m line rdict s

/-- Recording a match for one identifier leaves every other identifier's
accumulated entry untouched. -/
theorem assocLookup_multiRecord_ne :
    ∀ (s : List (String × List String)) (id : String) (caps : List String) (k : String),
      k ≠ id → assocLookup (multiRecord s id caps) k = assocLookup s k := by
  intro s
  induction s with
  | nil =>
    intro id caps k hk
    simp [multiRecord, assocLookup, Ne.symm hk]
  | cons p t ih =>
    intro id caps k hk
    obtain ⟨k0, v⟩ := p
    by_cases h0 : k0 = id
    · subst h0
      simp [multiRecord, assocLookup, Ne.symm hk]
    · by_cases h1 : k0 = k <;>
        simp [multiRecord, assocLookup, h0, h1, hk, ih id caps k hk]

/-- C4: for the exclusive Multi-Pattern Matcher, on any single scanned line at
most one identifier's accumulator entry changes (after the first successful
match nothing further is recorded for that line); and the flag is line-local,
so on a two-line stream where each line matches a different identifier both
get recorded. -/
theorem c4_exclusive_per_line :
    (∀ (m : String → String → List String) (rdict : List (String × List String))
       (line : String) (s : List (String × List String)) (id1 id2 : String),
      assocLookup (multiMAS m true rdict line s).1 id1 ≠ assocLookup s id1 →
      assocLookup (multiMAS m true rdict line s).1 id2 ≠ assocLookup s id2 →
      id1 = id2)
    ∧ multiDistill litOracle true true false (some "@@") [("A", ["a"]), ("B", ["b"])]
        ["a\n", "b\n"]
      = .ok (none, [("A", ["a"]), ("B", ["b"])]) := by
  constructor
  · intro m rdict line s id1 id2 h1 h2
    rw [multiMAS_first] at h1 h2
    cases hfh : firstHit m line rdict with
    | none =>
      rw [hfh] at h1
      simp at h1
    | some p =>
      obtain ⟨k, caps⟩ := p
      rw [hfh] at h1 h2
      simp only at h1 h2
      have e1 : id1 = k := by
        by_contra hne
        exact h1 (assocLookup_multiRecord_ne s k caps id1 hne)
      have e2 : id2 = k := by
        by_contra hne
        exact h2 (assocLookup_multiRecord_ne s k caps id2 hne)
      rw [e1, e2]
  · rfl

/-- Witness for C4: concretely, matching line `"a"` under exclusivity changes
only identifier `"A"`. -/
theorem c4_exclusive_per_line_witness :
    assocLookup (multiMAS litOracle true [("A", ["a"]), ("B", ["b"])] "a" []).1 "A"
      ≠ assocLookup ([] : List (String × List String)) "A"
    ∧ ("A" : String) = "A" :=
  ⟨by decide,
    c4_exclusive_per_line.1 litOracle [("A", ["a"]), ("B", ["b"])] "a" [] "A" "A"
      (by decide) (by decide)⟩

/-- C8, counterexample: with field-name inference on line
`"name1:[x] name2:[y]"` the inferred names keep the trailing colon (only
whitespace is removed from the remainder), so the mapping binds `"name1:"`,
not `"name1"` as claimed. -/
theorem c8_counterexample :
    rbtDistill '[' ']' true ["name1:[x] name2:[y]\n"]
      = .ok (some [], some (.dict [("name1:", "x"), ("name2:", "y")]))
    ∧ assocLookup [("name1:", "x"), ("name2:", "y")] "name1" = none
    ∧ assocLookup [("name1:", "x"), ("name2:", "y")] "name1:" = some "x" :=
  ⟨rfl, by decide, by decide⟩

/-- C8, amended: token-pair extractor with tokens `[` and `]` on `"[x] [y]"`
returns the ordered list `["x", "y"]`; with field-name inference on
`"name1:[x] name2:[y]"` it returns the mapping
`{"name1:": "x", "name2:": "y"}` (names keep the delimiter-adjacent colon). -/
theorem c8_token_pair_extraction :
    rbtDistill '[' ']' false ["[x] [y]\n"] = .ok (some [], some (.list ["x", "y"]))
    ∧ rbtDistill '[' ']' true ["name1:[x] name2:[y]\n"]
        = .ok (some [], some (.dict [("name1:", "x"), ("name2:", "y")])) :=
  ⟨rfl, rfl⟩

/-- Normalization removes every whitespace character. -/
theorem cleanupAll_nospace (line : String) :
    ∀ c ∈ (cleanupAll line).data, pyIsSpace c = false := by
  intro c hc
  have h : (cleanupAll line).data = line.data.filter (fun c => !pyIsSpace c) := rfl
  rw [h, List.mem_filter] at hc
  simpa using hc.2

/-- Both pieces produced by splitting at the first occurrence of a character
consist of characters of the input. -/
theorem splitAtFirst_mem (t : Char) :
    ∀ (cs b a : List Char), splitAtFirst t cs = some (b, a) →
      (∀ c ∈ b, c ∈ cs) ∧ (∀ c ∈ a, c ∈ cs) := by
  intro cs
  induction cs with
  | nil => intro b a h; simp [splitAtFirst] at h
  | cons c0 rest ih =>
    intro b a h
    by_cases hc : c0 = t
    · rw [splitAtFirst, if_pos hc] at h
      injection h with h'
      injection h' with hb ha
      subst hb; subst ha
      exact ⟨by simp, fun c hc' => List.mem_cons_of_mem c0 hc'⟩
    · rw [splitAtFirst, if_neg hc] at h
      cases h' : splitAtFirst t rest with
      | none => rw [h'] at h; simp at h
      | some p =>
        obtain ⟨b', a'⟩ := p
        rw [h'] at h
        injection h with h''
        injection h'' with hb ha
        subst hb; subst ha
        obtain ⟨ihb, iha⟩ := ih b' a' h'
        constructor
        · intro c hcmem
          rcases List.mem_cons.mp hcmem with h1 | h1
          · subst h1; exact List.mem_cons_self c rest
          · exact List.mem_cons_of_mem c0 (ihb c h1)
        · intro c hcmem
          exact List.mem_cons_of_mem c0 (iha c hcmem)

/-- Every capture of the token-pair findall consists of characters of the
input list. -/
theorem findAllBetweenAux_mem (t1 t2 : Char) :
    ∀ (fuel : Nat) (cs : List Char) (cap : String),
      cap ∈ findAllBetweenAux t1 t2 fuel cs → ∀ ch ∈ cap.data, ch ∈ cs := by
  intro fuel
  induction fuel with
  | zero => intro cs cap hcap; simp [findAllBetweenAux] at hcap
  | succ fuel ih =>
    intro cs cap hcap ch hch
    cases cs with
    | nil => simp [findAllBetweenAux] at hcap
    | cons c rest =>
      by_cases hc : c = t1
      · rw [findAllBetweenAux, if_pos hc] at hcap
        cases hsp : splitAtFirst t2 rest with
        | none =>
          rw [hsp] at hcap
          exact List.mem_cons_of_mem c (ih rest cap hcap ch hch)
        | some p =>
          obtain ⟨b, a⟩ := p
          rw [hsp] at hcap
          rcases List.mem_cons.mp hcap with h1 | h1
          · subst h1
            exact List.mem_cons_of_mem c ((splitAtFirst_mem t2 rest b a hsp).1 ch hch)
          · exact List.mem_cons_of_mem c
              ((splitAtFirst_mem t2 rest b a hsp).2 ch (ih a cap h1 ch hch))
      · rw [findAllBetweenAux, if_neg hc] at hcap
        exact List.mem_cons_of_mem c (ih rest cap hcap ch hch)

/-- Pieces of the whitespace split contain no whitespace characters. -/
theorem splitWsAux_nospace :
    ∀ (cs cur : List Char), (∀ c ∈ cur, pyIsSpace c = false) →
      ∀ piece ∈ splitWsAux cur cs, ∀ ch ∈ piece.data, pyIsSpace ch = false := by
  intro cs
  induction cs with
  | nil =>
    intro cur hcur piece hpiece ch hch
    by_cases h : cur.isEmpty
    · rw [splitWsAux, if_pos h] at hpiece
      simp at hpiece
    · rw [splitWsAux, if_neg h] at hpiece
      rcases List.mem_singleton.mp hpiece with rfl
      have : ch ∈ cur.reverse := hch
      exact hcur ch (List.mem_reverse.mp this)
  | cons c cs' ih =>
    intro cur hcur piece hpiece ch hch
    by_cases hsp : pyIsSpace c
    · rw [splitWsAux, if_pos hsp] at hpiece
      by_cases hcur0 : cur.isEmpty
      · rw [if_pos hcur0] at hpiece
        exact ih [] (by simp) piece hpiece ch hch
      · rw [if_neg hcur0] at hpiece
        rcases List.mem_cons.mp hpiece with h1 | h1
        · subst h1
          exact hcur ch (List.mem_reverse.mp hch)
        · exact ih [] (by simp) piece h1 ch hch
    · rw [splitWsAux, if_neg hsp] at hpiece
      refine ih (c :: cur) ?_ piece hpiece ch hch
      intro c' hc'
      rcases List.mem_cons.mp hc' with h1 | h1
      · subst h1
        simpa using hsp
      · exact hcur c' h1

/-- Python dict assignment only introduces the assigned pair. -/
theorem dictInsert_mem :
    ∀ (d : List (String × String)) (k v : String) (kv : String × String),
      kv ∈ dictInsert d k v → kv ∈ d ∨ kv = (k, v) := by
  intro d
  induction d with
  | nil => intro k v kv h; simp [dictInsert] at h; right; exact h
  | cons p t ih =>
    intro k v kv h
    obtain ⟨k0, v0⟩ := p
    by_cases h0 : k0 = k
    · rw [dictInsert, if_pos h0] at h
      rcases List.mem_cons.mp h with h1 | h1
      · right; rw [h1, h0]
      · left; exact List.mem_cons_of_mem (k0, v0) h1
    · rw [dictInsert, if_neg h0] at h
      rcases List.mem_cons.mp h with h1 | h1
      · left; rw [h1]; exact List.mem_cons_self (k0, v0) t
      · rcases ih k v kv h1 with h2 | h2
        · left; exact List.mem_cons_of_mem (k0, v0) h2
        · right; exact h2

/-- Every pair of the dict built by name inference comes from the initial
dict, the name list and the capture list. -/
theorem buildDict_mem (data : List String) :
    ∀ (names : List String) (i : Nat) (d out : List (String × String)),
      buildDict data names i d = .ok out →
      ∀ kv ∈ out, kv ∈ d ∨ (kv.1 ∈ names ∧ kv.2 ∈ data) := by
  intro names
  induction names with
  | nil =>
    intro i d out h kv hkv
    simp only [buildDict] at h
    injection h with h'
    subst h'
    exact Or.inl hkv
  | cons name rest ih =>
    intro i d out h kv hkv
    simp only [buildDict] at h
    cases hv : data.get? i with
    | none => rw [hv] at h; exact absurd h (by simp)
    | some v =>
      rw [hv] at h
      rcases ih (i + 1) (dictInsert d name v) out h kv hkv with h1 | h1
      · rcases dictInsert_mem d name v kv h1 with h2 | h2
        · exact Or.inl h2
        · refine Or.inr ⟨?_, ?_⟩
          · rw [h2]; exact List.mem_cons_self name rest
          · rw [h2]; exact List.get?_mem hv
      · exact Or.inr ⟨List.mem_cons_of_mem name h1.1, h1.2⟩

/-- C9: normalization removes every whitespace character from the line before
matching; consequently, for any findall oracle whose captures are made of
characters of its input (true of real regex captures), no capture returned by
the base scanner contains whitespace; and in the token-pair extractor neither
the captures nor the inferred field names (computed from the fully
whitespace-stripped line) contain whitespace. -/
theorem c9_whitespace_free :
    (∀ (line : String), ∀ c ∈ (cleanupAll line).data, pyIsSpace c = false)
    ∧ (∀ (m : String → String → List String) (regex : String) (sm : Bool)
        (st : Option String) (cursor : List String)
        (res : Option (List String) × List String),
      (∀ pat s cap, cap ∈ m pat s → ∀ ch ∈ cap.data, ch ∈ s.data) →
      regexReadDistill m regex sm st cursor = .ok res →
      ∀ cap ∈ res.2, ∀ ch ∈ cap.data, pyIsSpace ch = false)
    ∧ (∀ (t1 t2 : Char) (sn : Bool) (cursor : List String)
        (res : Option (List String) × Option RbtSample),
      rbtDistill t1 t2 sn cursor = .ok res →
      (∀ xs, res.2 = some (RbtSample.list xs) →
        ∀ cap ∈ xs, ∀ ch ∈ cap.data, pyIsSpace ch = false)
      ∧ (∀ d, res.2 = some (RbtSample.dict d) → ∀ kv ∈ d,
          (∀ ch ∈ kv.1.data, pyIsSpace ch = false)
          ∧ (∀ ch ∈ kv.2.data, pyIsSpace ch = false))) := by
  refine ⟨cleanupAll_nospace, ?_, ?_⟩
  · intro m regex sm st cursor res hm hres
    refine distillLoop_pure_invariant sm st cleanupAll (regexReadStep m regex)
      (fun acc => ∀ cap ∈ acc, ∀ ch ∈ cap.data, pyIsSpace ch = false)
      cursor [] res ?_ (by simp) hres
    intro l _ acc hacc cap hcap ch hch
    rcases List.mem_append.mp hcap with h1 | h1
    · exact hacc cap h1 ch hch
    · exact cleanupAll_nospace l ch (hm regex (cleanupAll l) cap h1 ch hch)
  · intro t1 t2 sn cursor res hres
    cases cursor with
    | nil =>
      simp only [rbtDistill] at hres
      injection hres with h
      subst h
      exact ⟨fun xs h => by simp at h, fun d h => by simp at h⟩
    | cons line rest =>
      by_cases he : line = ""
      · rw [rbtDistill, if_pos he] at hres
        injection hres with h
        subst h
        exact ⟨fun xs h => by simp at h, fun d h => by simp at h⟩
      · rw [rbtDistill, if_neg he] at hres
        by_cases hsn : sn = true
        · rw [if_pos hsn] at hres
          cases hbd : buildDict (findAllBetween t1 t2 (cleanupAll line).data)
              (splitWs (subBetween t1 t2 (cleanupAll line).data)) 0 [] with
          | error e => rw [hbd] at hres; exact absurd hres (by simp)
          | ok d0 =>
            rw [hbd] at hres
            injection hres with h
            subst h
            refine ⟨fun xs h => by simp at h, fun d hd kv hkv => ?_⟩
            have hd0 : d = d0 := by
              injection hd with h'
              injection h' with h''
              exact h''.symm
            subst hd0
            rcases buildDict_mem (findAllBetween t1 t2 (cleanupAll line).data)
              (splitWs (subBetween t1 t2 (cleanupAll line).data)) 0 [] d hbd kv hkv with
              h1 | h1
            · simp at h1
            · constructor
              · exact splitWsAux_nospace (subBetween t1 t2 (cleanupAll line).data) []
                  (by simp) kv.1 h1.1
              · intro ch hch
                exact cleanupAll_nospace line ch
                  (findAllBetweenAux_mem t1 t2 ((cleanupAll line).data.length + 1)
                    (cleanupAll line).data kv.2 h1.2 ch hch)
        · rw [if_neg hsn] at hres
          injection hres with h
          subst h
          refine ⟨fun xs hxs cap hcap ch hch => ?_, fun d hd => by simp at hd⟩
          have hxs' : xs = findAllBetween t1 t2 (cleanupAll line).data := by
            injection hxs with h'
            injection h' with h''
            exact h''.symm
          subst hxs'
          exact cleanupAll_nospace line ch
            (findAllBetweenAux_mem t1 t2 ((cleanupAll line).data.length + 1)
              (cleanupAll line).data cap hcap ch hch)

/-- Witness for C9: a concrete character of each kind of output, via the
theorem applied at concrete runs (with the whole-line oracle, whose captures
are trivially made of input characters). -/
theorem c9_whitespace_free_witness :
    pyIsSpace 'x' = false ∧ pyIsSpace 'a' = false ∧ pyIsSpace 'b' = false :=
  ⟨c9_whitespace_free.1 "x" 'x' (by decide),
   c9_whitespace_free.2.1 idOracle "r" false none ["ab\n"] (some [], ["ab"])
     (fun pat s cap hcap ch hch => by
       rcases List.mem_singleton.mp hcap with rfl
       exact hch)
     rfl "ab" (by decide) 'a' (by decide),
   (c9_whitespace_free.2.2 '[' ']' false ["[b]\n"] (some [], some (.list ["b"])) rfl).1
     ["b"] rfl "b" (by decide) 'b' (by decide)⟩

/-- C10: with `block_end_token` left unset, the substring test against `None`
in `BlockRegexRead._match_and_store` raises a TypeError while processing the
first line of any non-empty stream, whatever the other options are. -/
theorem c10_none_block_token (m : String → String → List String)
    (stopToken : Option String) (clean : Bool) (rdict : List (String × List String))
    (l : String) (rest : List String) (h : l ≠ "") :
    blockDistill m none stopToken clean rdict (l :: rest) = .error .typeError := by
  simp [blockDistill, distillLoop, blockMAS, h]

/-- Witness for C10 at a concrete non-empty stream. -/
theorem c10_none_block_token_witness :
    ("x\n" : String) ≠ ""
    ∧ blockDistill kvOracle none none true [] ["x\n"] = .error .typeError :=
  ⟨by decide, c10_none_block_token kvOracle none true [] "x\n" [] (by decide)⟩

end TextDistiller
